import Mathlib

/-!
Verification of the prediction module of the hdbscan repository
(`hdbscan/prediction.py`).

The module predicts cluster membership of new points against a fitted
hierarchical density-based clustering.  We shallowly embed the functions
`_find_neighbor_and_lambda`, `_extend_condensed_tree`,
`_find_cluster_and_probability`, `PredictionData.__init__` and
`approximate_predict` over lists of rational numbers: raw distances and
core distances are rationals, while lambda values (reciprocals of
mutual-reachability distances) are modelled by `Flt`, a rational number
extended with a positive infinity so that the IEEE-754 behaviour
`1.0 / 0.0 = inf` relied upon by the source is represented exactly.
-/

/-- A float value as used by the source for lambda values: either a finite
value (modelled as a rational) or positive infinity (`1.0 / 0.0`). -/
inductive Flt where
  | fin (q : ℚ) : Flt
  | inf : Flt
deriving DecidableEq

namespace Flt

/-- Strict `<` comparison of float values, with `inf` greater than every
finite value (IEEE-754 ordering restricted to the values we model). -/
def blt : Flt → Flt → Bool
  | fin a, fin b => decide (a < b)
  | fin _, inf => true
  | inf, _ => false

/-- Non-strict `<=` comparison of float values. -/
def ble : Flt → Flt → Bool
  | fin a, fin b => decide (a ≤ b)
  | inf, fin _ => false
  | _, inf => true

/-- Python `min(a, b)`: returns `b` exactly when `b < a`, else `a`. -/
def fmin (a b : Flt) : Flt := if blt b a then b else a

/-- Float division as used on the source's probability path, where the
divisor is a strictly positive finite value: `inf / b = inf` for finite
positive `b`.  The remaining cases are unreachable on the embedded code
paths and are given harmless values. -/
def fdiv : Flt → Flt → Flt
  | fin a, fin b => fin (a / b)
  | inf, fin _ => inf
  | fin _, inf => fin 0
  | inf, inf => fin 0

/-- The reciprocal `1. / q` of a nonnegative float, with the IEEE
convention that the reciprocal of zero is positive infinity. -/
def recipQ (q : ℚ) : Flt := if q = 0 then inf else fin q⁻¹

/-- A float is nonnegative: infinite, or finite with nonnegative value. -/
def Nonneg : Flt → Prop
  | fin q => 0 ≤ q
  | inf => True

theorem recipQ_nonneg (q : ℚ) (h : 0 ≤ q) : Nonneg (recipQ q) := by
  unfold recipQ
  by_cases h0 : q = 0
  · simp [h0, Nonneg]
  · simp only [h0, if_false]
    exact inv_nonneg.mpr h

end Flt

/-- A record of the condensed hierarchy.  The field layout follows the
spec's data model `(parent, child, lambda_val, child_size)`; the structured
dtype itself is created outside this module (`condensed_tree.to_numpy`).
`lambda_val` is a float; `child_size` (an integer count in the dtype) is
modelled by the same value type for uniformity — the only operation the
embedded code applies to it is the comparison `child_size > 1`, which
agrees with the integer comparison on the integral counts that occur. -/
structure TreeRec where
  parent : Int
  child : Int
  lambda_val : Flt
  child_size : Flt
deriving DecidableEq

/-- Models `np.argmin` over a one-dimensional array: the index of the
first occurrence of the minimum value, or `none` for an empty array
(where numpy raises `ValueError`). -/
def argmin : List ℚ → Option Nat
  | [] => none
  | x :: xs =>
    match argmin xs with
    | none => some 0
    | some k => if xs.getD k 0 < x then some (k + 1) else some 0

theorem argmin_cons (x : ℚ) (xs : List ℚ) :
    argmin (x :: xs) = match argmin xs with
      | none => some 0
      | some k => if xs.getD k 0 < x then some (k + 1) else some 0 := rfl

theorem argmin_eq_none {l : List ℚ} (h : argmin l = none) : l = [] := by
  cases l with
  | nil => rfl
  | cons x xs =>
    rw [argmin_cons] at h
    cases hx : argmin xs with
    | none => simp [hx] at h
    | some k =>
      simp only [hx] at h
      split at h <;> simp at h

theorem argmin_spec : ∀ (l : List ℚ) (k : Nat), argmin l = some k →
    k < l.length ∧ (∀ j, j < l.length → l.getD k 0 ≤ l.getD j 0) ∧
      (∀ j, j < k → l.getD k 0 < l.getD j 0) := by
  intro l
  induction l with
  | nil => intro k h; simp [argmin] at h
  | cons x xs ih =>
    intro k h
    rw [argmin_cons] at h
    cases hx : argmin xs with
    | none =>
      simp only [hx] at h
      have hnil : xs = [] := argmin_eq_none hx
      subst hnil
      have hk0 : 0 = k := by simpa using h
      subst hk0
      refine ⟨by simp, ?_, ?_⟩
      · intro j hj
        have hj0 : j = 0 := by
          simp only [List.length_cons, List.length_nil] at hj
          omega
        subst hj0
        exact le_refl _
      · intro j hj; omega
    | some k' =>
      simp only [hx] at h
      obtain ⟨hklen, hkmin, hkfirst⟩ := ih k' hx
      by_cases hc : xs.getD k' 0 < x
      · rw [if_pos hc] at h
        have hk : k' + 1 = k := by simpa using h
        subst hk
        refine ⟨by simp only [List.length_cons]; omega, ?_, ?_⟩
        · intro j hj
          cases j with
          | zero =>
            simp only [List.getD_cons_succ, List.getD_cons_zero]
            exact le_of_lt hc
          | succ j' =>
            simp only [List.getD_cons_succ]
            refine hkmin j' ?_
            simp only [List.length_cons] at hj
            omega
        · intro j hj
          cases j with
          | zero =>
            simp only [List.getD_cons_succ, List.getD_cons_zero]
            exact hc
          | succ j' =>
            simp only [List.getD_cons_succ]
            exact hkfirst j' (by omega)
      · rw [if_neg hc] at h
        have hk : 0 = k := by simpa using h
        subst hk
        refine ⟨by simp, ?_, ?_⟩
        · intro j hj
          cases j with
          | zero => exact le_refl _
          | succ j' =>
            simp only [List.getD_cons_succ, List.getD_cons_zero]
            refine le_trans (not_lt.mp hc) (hkmin j' ?_)
            simp only [List.length_cons] at hj
            omega
        · intro j hj; omega

theorem argmin_isSome {l : List ℚ} (h : l ≠ []) : ∃ k, argmin l = some k := by
  cases hx : argmin l with
  | none => exact absurd (argmin_eq_none hx) h
  | some k => exact ⟨k, rfl⟩

/-- Embedding of `_find_neighbor_and_lambda` (prediction.py lines 118-162).
Given raw nearest-neighbor candidate indices and distances for one query
point, the per-point core-distance array and `min_samples`, it computes
`neighbor_core_distances = core_distances[neighbor_indices]` (fancy
indexing, which raises `IndexError` on an out-of-range index),
`point_core_distances = neighbor_distances[min_samples] * ones(...)`
(scalar indexing, `IndexError` when out of bounds), stacks the three
arrays (`np.vstack`, `ValueError` on a length mismatch) and takes the
columnwise maximum, then selects `np.argmin` of the result and returns
the corresponding original index together with
`lambda = 1. / mr_distances[nn_index]` (positive infinity when the
minimal mutual-reachability distance is zero). -/
def findNeighborAndLambda (idx : List Nat) (nd : List ℚ) (core : List ℚ)
    (ms : Nat) : Except String (Nat × Flt) :=
  if _hAll : ∀ i ∈ idx, i < core.length then
    if hms : ms < nd.length then
      if idx.length = nd.length then
        match argmin (List.zipWith (fun a c => max a (max (nd.get ⟨ms, hms⟩) c))
            (idx.map (fun i => core.getD i 0)) nd) with
        | some k =>
          if hk : k < idx.length then
            Except.ok (idx.get ⟨k, hk⟩,
              Flt.recipQ ((List.zipWith
                (fun a c => max a (max (nd.get ⟨ms, hms⟩) c))
                (idx.map (fun i => core.getD i 0)) nd).getD k 0))
          else Except.error "IndexError: index out of bounds"
        | none => Except.error "ValueError: attempt to reduce an empty sequence"
      else Except.error "ValueError: array dimensions must match"
    else Except.error "IndexError: index out of bounds"
  else Except.error "IndexError: index out of bounds for fancy indexing"

/-- The mutual-reachability distance of candidate `j`, transcribed from
the spec's formula: the maximum of the candidate's core distance, the
query's pseudo core distance (the raw distance at 0-based index
`min_samples`) and the raw distance to the candidate.  Used to state what
the vectorized source computes. -/
def mrDistSpec (idx : List Nat) (nd : List ℚ) (core : List ℚ) (ms : Nat)
    (j : Nat) : ℚ :=
  max (core.getD (idx.getD j 0) 0) (max (nd.getD ms 0) (nd.getD j 0))

theorem getD_zipWith (f : ℚ → ℚ → ℚ) :
    ∀ (a b : List ℚ) (j : Nat), j < a.length → j < b.length →
      (List.zipWith f a b).getD j 0 = f (a.getD j 0) (b.getD j 0) := by
  intro a
  induction a with
  | nil => intro b j h _; simp at h
  | cons x xs ih =>
    intro b j ha hb
    cases b with
    | nil => simp at hb
    | cons y ys =>
      cases j with
      | zero => simp
      | succ j' =>
        simp only [List.zipWith_cons_cons, List.getD_cons_succ]
        refine ih ys j' ?_ ?_
        · simp only [List.length_cons] at ha; omega
        · simp only [List.length_cons] at hb; omega

theorem getD_map_core (core : List ℚ) :
    ∀ (l : List Nat) (j : Nat), j < l.length →
      (l.map (fun i => core.getD i 0)).getD j 0 = core.getD (l.getD j 0) 0 := by
  intro l
  induction l with
  | nil => intro j h; simp at h
  | cons x xs ih =>
    intro j h
    cases j with
    | zero => simp
    | succ j' =>
      simp only [List.map_cons, List.getD_cons_succ]
      refine ih j' ?_
      simp only [List.length_cons] at h
      omega

/-- The entries of the stacked maximum computed by the source agree with
the spec formula `mrDistSpec` at every valid position. -/
theorem mr_entry (idx : List Nat) (nd : List ℚ) (core : List ℚ) (ms : Nat)
    (hms : ms < nd.length) (hlen : idx.length = nd.length)
    (j : Nat) (hj : j < idx.length) :
    (List.zipWith (fun a c => max a (max (nd.get ⟨ms, hms⟩) c))
      (idx.map (fun i => core.getD i 0)) nd).getD j 0 =
    mrDistSpec idx nd core ms j := by
  rw [getD_zipWith _ _ _ j (by simpa using hj) (hlen ▸ hj)]
  rw [getD_map_core core idx j hj]
  unfold mrDistSpec
  have hpcd : nd.get ⟨ms, hms⟩ = nd.getD ms 0 := by
    rw [List.getD_eq_getElem nd 0 hms]
    rfl
  rw [hpcd]

/-- Full characterization of a successful run of the resolver: it returns
the original index at the first position minimizing the
mutual-reachability distance, together with the reciprocal of that
minimal distance. -/
theorem resolver_ok_spec (idx : List Nat) (nd : List ℚ) (core : List ℚ)
    (ms : Nat) (hAll : ∀ i ∈ idx, i < core.length) (hms : ms < nd.length)
    (hlen : idx.length = nd.length) :
    ∃ k, k < idx.length ∧
      findNeighborAndLambda idx nd core ms =
        Except.ok (idx.getD k 0, Flt.recipQ (mrDistSpec idx nd core ms k)) ∧
      (∀ j, j < idx.length →
        mrDistSpec idx nd core ms k ≤ mrDistSpec idx nd core ms j) ∧
      (∀ j, j < k →
        mrDistSpec idx nd core ms k < mrDistSpec idx nd core ms j) := by
  have hmr_len : (List.zipWith (fun a c => max a (max (nd.get ⟨ms, hms⟩) c))
      (idx.map (fun i => core.getD i 0)) nd).length = idx.length := by
    simp [List.length_zipWith, hlen]
  have hne : (List.zipWith (fun a c => max a (max (nd.get ⟨ms, hms⟩) c))
      (idx.map (fun i => core.getD i 0)) nd) ≠ [] := by
    intro hcon
    have hlz := congrArg List.length hcon
    rw [hmr_len] at hlz
    simp only [List.length_nil] at hlz
    omega
  obtain ⟨k, hk⟩ := argmin_isSome hne
  obtain ⟨hklen, hkmin, hkfirst⟩ := argmin_spec _ k hk
  rw [hmr_len] at hklen
  refine ⟨k, hklen, ?_, ?_, ?_⟩
  · unfold findNeighborAndLambda
    rw [dif_pos hAll, dif_pos hms, if_pos hlen]
    simp only [hk]
    rw [dif_pos hklen]
    rw [mr_entry idx nd core ms hms hlen k hklen]
    rw [List.getD_eq_getElem idx 0 hklen]
    rfl
  · intro j hj
    have hj2 := hkmin j (by rwa [hmr_len])
    rwa [mr_entry idx nd core ms hms hlen k hklen,
      mr_entry idx nd core ms hms hlen j hj] at hj2
  · intro j hj
    have hj2 := hkfirst j hj
    rwa [mr_entry idx nd core ms hms hlen k hklen,
      mr_entry idx nd core ms hms hlen j (lt_trans hj hklen)] at hj2

/-- Modelled from the spec: the child-lookup `row_for_child` of the
Condensed Hierarchy Store, imported by the source from
`_prediction_utils.get_tree_row_with_child` which is not part of the
module under verification.  It returns the record whose `child` field
equals the given id, or nothing when no such record exists (the spec's
`InvalidArgument` / data-inconsistency failure). -/
def get_tree_row_with_child (tree : List TreeRec) (childId : Int) :
    Option TreeRec :=
  tree.find? (fun r => r.child == childId)

/-- Models `arr['parent'].min()`: the minimum of the parent column, or
`none` for an empty array (numpy raises `ValueError`). -/
def minListInt : List Int → Option Int
  | [] => none
  | x :: xs => some (xs.foldl min x)

/-- The upward walk shared by `_extend_condensed_tree` (lines 214-218)
and `_find_cluster_and_probability` (lines 276-280):
`while potential_cluster > tree_root and
       arr['lambda_val'][arr['child'] == potential_cluster] >= lambda_:
   potential_cluster = arr['parent'][arr['child'] == potential_cluster][0]`.
The boolean-array condition is the truthiness of the selected column:
children are unique in a condensed tree, so the mask selects at most one
row; an empty selection is falsy (era-appropriate numpy), which exits the
loop.  The Python loop need not terminate on adversarial inputs, so the
model takes a fuel parameter and returns `none` when it is exhausted. -/
def climb (arr : List TreeRec) (root : Int) (lam : Flt) :
    Nat → Int → Option Int
  | 0, _ => none
  | fuel + 1, pc =>
    if root < pc then
      match arr.find? (fun r => r.child == pc) with
      | some r =>
        if Flt.ble lam r.lambda_val then climb arr root lam fuel r.parent
        else some pc
      | none => some pc
    else some pc

/-- The part of `_find_cluster_and_probability` (lines 262-280) that
determines the hierarchy node enclosing the new point: the root of the
cluster-only tree is `cluster_tree['parent'].min()`, the resolver gives
the nearest mutual-reachability neighbor and its lambda, the neighbor's
merge record is looked up in the full tree, and if the neighbor merged at
a strictly finer density than the new point's lambda, the walk ascends the
cluster-only tree.  Returns the enclosing node together with the lambda. -/
def enclosingCluster (raw ctree : List TreeRec) (idx : List Nat)
    (nd core : List ℚ) (ms fuel : Nat) : Except String (Int × Flt) :=
  match minListInt (ctree.map (fun r => r.parent)) with
  | none => Except.error "ValueError: zero-size array reduction"
  | some root =>
    match findNeighborAndLambda idx nd core ms with
    | Except.error e => Except.error e
    | Except.ok (nn, lam) =>
      match get_tree_row_with_child raw (Int.ofNat nn) with
      | none => Except.error "KeyError: child not found"
      | some row =>
        if Flt.blt lam row.lambda_val then
          match climb ctree root lam fuel row.parent with
          | none => Except.error "while loop did not terminate"
          | some pc => Except.ok (pc, lam)
        else Except.ok (row.parent, lam)

/-- The tail of `_find_cluster_and_probability` (lines 282-298): given the
enclosing node and the lambda, look the node up in the cluster map
(label `-1` when absent), and compute the membership probability: for a
non-negative label, read `max_lambdas[potential_cluster]` (a `KeyError`
when absent, as in Python); if it is positive, clamp
`lambda_ = min(max_lambda, lambda_)` and divide, otherwise the
probability is `1.0`; for a negative label the probability is `0.0`. -/
def assignLabelProb (cmap : List (Int × Int)) (mls : List (Int × Flt))
    (pc : Int) (lam : Flt) : Except String (Int × Flt) :=
  match List.lookup pc cmap with
  | some label =>
    if 0 ≤ label then
      match List.lookup pc mls with
      | none => Except.error "KeyError: cluster has no max lambda"
      | some maxL =>
        if Flt.blt (Flt.fin 0) maxL then
          Except.ok (label, Flt.fdiv (Flt.fmin maxL lam) maxL)
        else Except.ok (label, Flt.fin 1)
    else Except.ok (label, Flt.fin 0)
  | none => Except.ok (-1, Flt.fin 0)

/-- Embedding of `_find_cluster_and_probability` (prediction.py lines 225-298): the
enclosing-node determination followed by label assignment and scoring. -/
def findClusterAndProbability (raw ctree : List TreeRec) (idx : List Nat)
    (nd core : List ℚ) (cmap : List (Int × Int)) (mls : List (Int × Flt))
    (ms fuel : Nat) : Except String (Int × Flt) :=
  match enclosingCluster raw ctree idx nd core ms fuel with
  | Except.error e => Except.error e
  | Except.ok (pc, lam) => assignLabelProb cmap mls pc lam

/-- Models `np.append(tree, new_tree_row)` (prediction.py line 222),
where `tree` is the structured condensed-tree record array (as required
by the field accesses on lines 197-218) and `new_tree_row` is a bare
Python tuple `(potential_cluster, -1, 1, lambda-value)`.  `np.append`
with no axis computes `concatenate((tree, ravel(new_tree_row)))`;
ravelling the numeric tuple yields a plain float64 array (no dtype is
supplied), and dtype promotion between the structured void dtype and
float64 fails, so the call raises `TypeError: invalid type promotion`
for every input instead of appending a record.  The tuple argument
records what the source builds; it never reaches the output. -/
def npAppendTupleToStructured (_tree : List TreeRec)
    (_row : Int × Int × ℚ × Flt) : Except String (List TreeRec) :=
  Except.error "TypeError: invalid type promotion"

/-- Whether a result is an error (used to state that a function never
returns normally). -/
def isErrorResult {α : Type} : Except String α → Bool
  | Except.error _ => true
  | Except.ok _ => false

/-- Embedding of `_extend_condensed_tree` (prediction.py lines 165-222).
The root is `tree['parent'].min()`, the resolver supplies the neighbor
and lambda, the neighbor's merge record is looked up, the attachment
ancestor is chosen (directly, or by the upward walk), and the synthetic
row for point id `-1` — the bare tuple
`(potential_cluster, -1, 1, lambda-value)` — is passed to `np.append`,
which raises `TypeError` (see `npAppendTupleToStructured`), so the
function never returns an extended hierarchy. -/
def extendCondensedTree (tree : List TreeRec) (idx : List Nat)
    (nd core : List ℚ) (ms fuel : Nat) : Except String (List TreeRec) :=
  match minListInt (tree.map (fun r => r.parent)) with
  | none => Except.error "ValueError: zero-size array reduction"
  | some root =>
    match findNeighborAndLambda idx nd core ms with
    | Except.error e => Except.error e
    | Except.ok (nn, lam) =>
      match get_tree_row_with_child tree (Int.ofNat nn) with
      | none => Except.error "KeyError: child not found"
      | some row =>
        if Flt.ble row.lambda_val lam then
          npAppendTupleToStructured tree (row.parent, -1, 1, row.lambda_val)
        else
          match climb tree root lam fuel row.parent with
          | none => Except.error "while loop did not terminate"
          | some pc => npAppendTupleToStructured tree (pc, -1, 1, lam)

/-- Models numpy basic indexing `a[:, :2]` applied to `cluster_tree`,
which is a one-dimensional structured record array (a boolean-mask
selection from `condensed_tree.to_numpy()`).  Supplying a two-dimensional
index to a one-dimensional array raises
`IndexError: too many indices for array`, so the operation fails for
every input array. -/
def sliceFirstTwoCols (_a : List TreeRec) :
    Except String (List (Int × Int)) :=
  Except.error "IndexError: too many indices for array"

/-- Models the read of the Python name `exemplars` in
`PredictionData.__init__` (lines 113 and 115): the name is never bound
anywhere in the constructor or the module, so reading it raises
`NameError`.  Modelled as an uninhabited binding. -/
def exemplarsBinding : Option (List (Int × List TreeRec)) := none

/-- Embedding of `PredictionData.__init__` (prediction.py lines 81-115), starting
after the externally-collaborating steps (space-tree construction and
core-distance query, lines 83-86) and the external calls
`condensed_tree._select_clusters()` / `condensed_tree.to_numpy()`
(lines 88-89), whose results are the two parameters.  It builds the
cluster map from the selected clusters, filters the cluster-only tree
(`child_size > 1`), and then evaluates
`set(self.cluster_tree[:,:2].flatten())` (line 98) — a two-dimensional
slice of a one-dimensional structured array.  The remaining loops
(lines 99-115) additionally read the unbound name `exemplars`; they are
modelled by the read of `exemplarsBinding`, which is reached only if the
slice were to succeed.  On success the constructor would return the
built attributes; no input reaches that point. -/
def predictionDataInit (selected : List Int) (raw : List TreeRec) :
    Except String
      (List (Int × Int) × List TreeRec × List (Int × List TreeRec)) :=
  match sliceFirstTwoCols
      (raw.filter (fun r => Flt.blt (Flt.fin 1) r.child_size)) with
  | Except.error e => Except.error e
  | Except.ok _ =>
    match exemplarsBinding with
    | none => Except.error "NameError: name exemplars is not defined"
    | some ex =>
      Except.ok ((selected.zip (List.range selected.length)),
        raw.filter (fun r => Flt.blt (Flt.fin 1) r.child_size), ex)

/-- The cached prediction state built once per clustering
(`clusterer.prediction_data_`).  The spatial index is modelled by its
query function `query pts k = (distances, indices)`, the external
collaborator consumed by `approximate_predict`. -/
structure PData where
  raw_data : List (List ℚ)
  query : List (List ℚ) → Nat → List (List ℚ) × List (List Nat)
  core_distances : List ℚ
  cluster_tree : List TreeRec
  cluster_map : List (Int × Int)
  max_lambdas : List (Int × Flt)

/-- The fitted clusterer state consumed by `approximate_predict`:
optional prediction data, the raw condensed tree
(`clusterer.condensed_tree_._raw_tree`), and the `min_samples` /
`min_cluster_size` parameters. -/
structure Clusterer where
  prediction_data : Option PData
  condensed_tree : List TreeRec
  min_samples : Option Nat
  min_cluster_size : Nat

/-- Models `clusterer.min_samples or clusterer.min_cluster_size` (line 353):
Python `or` falls through on the falsy values `None` and `0`. -/
def effectiveMinSamples (c : Clusterer) : Nat :=
  match c.min_samples with
  | none => c.min_cluster_size
  | some 0 => c.min_cluster_size
  | some k => k

/-- Models `np.asarray(points).shape[1]`: the common row length of a
rectangular nonempty two-dimensional array; `none` when the array is
empty (shape `(0,)`) or ragged (an object array), where indexing
`shape[1]` raises `IndexError`. -/
def shape2 : List (List ℚ) → Option Nat
  | [] => none
  | r :: rs => if rs.all (fun s => s.length == r.length) then some r.length
    else none

/-- The per-point phase of `approximate_predict` (lines 354-372): query
the spatial index once for `2 * min_samples` neighbors of every point,
then run `_find_cluster_and_probability` for each point and collect the
labels and probabilities.  Indexing the query result rows fails if the
index returns a wrong number of rows. -/
def perPointPhase (pd : PData) (raw : List TreeRec) (ms : Nat)
    (pts : List (List ℚ)) (fuel : Nat) :
    Except String (List Int × List Flt) :=
  if (pd.query pts (2 * ms)).1.length = pts.length ∧
      (pd.query pts (2 * ms)).2.length = pts.length then
    match (List.zip (pd.query pts (2 * ms)).1
        (pd.query pts (2 * ms)).2).mapM
        (fun p => findClusterAndProbability raw pd.cluster_tree p.2 p.1
          pd.core_distances pd.cluster_map pd.max_lambdas ms fuel) with
    | Except.error e => Except.error e
    | Except.ok prs =>
      Except.ok (prs.map (fun pr => pr.1), prs.map (fun pr => pr.2))
  else Except.error "IndexError: neighbor query shape mismatch"

/-- Embedding of `approximate_predict` (prediction.py lines 301-372): raise
`ValueError` when the clusterer has no prediction data; convert the query
points and compare `points_to_predict.shape[1]` with
`raw_data.shape[1]`, raising `ValueError` on a mismatch; then perform the
batched neighbor query and the per-point loop. -/
def approximate_predict (c : Clusterer) (pts : List (List ℚ))
    (fuel : Nat) : Except String (List Int × List Flt) :=
  match c.prediction_data with
  | none => Except.error "Clusterer does not have prediction data!"
  | some pd =>
    match shape2 pts, shape2 pd.raw_data with
    | some dp, some dr =>
      if dp ≠ dr then
        Except.error "New points dimension does not match fit data!"
      else perPointPhase pd c.condensed_tree (effectiveMinSamples c) pts fuel
    | _, _ => Except.error "IndexError: tuple index out of range"

theorem lookup_mem {β : Type} (l : List (Int × β)) (k : Int) (v : β)
    (h : List.lookup k l = some v) : (k, v) ∈ l := by
  induction l with
  | nil => simp [List.lookup] at h
  | cons p t ih =>
    obtain ⟨k1, v1⟩ := p
    by_cases hbeq : k == k1
    · simp only [List.lookup, hbeq] at h
      have hk : k = k1 := eq_of_beq hbeq
      have hv : v1 = v := by simpa using h
      subst hk; subst hv
      exact List.mem_cons_self _ _
    · rw [Bool.not_eq_true] at hbeq
      simp only [List.lookup, hbeq] at h
      exact List.mem_cons_of_mem _ (ih h)

/-- Inversion: a successful resolver run implies that all three index
checks passed. -/
theorem resolver_ok_inversion (idx : List Nat) (nd core : List ℚ)
    (ms : Nat) (r : Nat × Flt)
    (h : findNeighborAndLambda idx nd core ms = Except.ok r) :
    (∀ i ∈ idx, i < core.length) ∧ ms < nd.length ∧
      idx.length = nd.length := by
  unfold findNeighborAndLambda at h
  by_cases hAll : ∀ i ∈ idx, i < core.length
  · rw [dif_pos hAll] at h
    by_cases hms : ms < nd.length
    · rw [dif_pos hms] at h
      by_cases hlen : idx.length = nd.length
      · exact ⟨hAll, hms, hlen⟩
      · rw [if_neg hlen] at h; cases h
    · rw [dif_neg hms] at h; cases h
  · rw [dif_neg hAll] at h; cases h

/-- A successful resolver run on nonnegative distances yields a
nonnegative (possibly infinite) lambda. -/
theorem resolver_lam_nonneg (idx : List Nat) (nd core : List ℚ) (ms : Nat)
    (nn : Nat) (lam : Flt)
    (h : findNeighborAndLambda idx nd core ms = Except.ok (nn, lam))
    (hnd : ∀ q ∈ nd, 0 ≤ q) : Flt.Nonneg lam := by
  obtain ⟨hAll, hms, hlen⟩ := resolver_ok_inversion idx nd core ms _ h
  obtain ⟨k, hk1, hk2, _, _⟩ := resolver_ok_spec idx nd core ms hAll hms hlen
  rw [hk2] at h
  injection h with h2
  rw [Prod.mk.injEq] at h2
  obtain ⟨-, hlam⟩ := h2
  have hmr : 0 ≤ mrDistSpec idx nd core ms k := by
    have hkd : k < nd.length := hlen ▸ hk1
    have hd0 : 0 ≤ nd.getD k 0 := by
      rw [List.getD_eq_getElem nd 0 hkd]
      exact hnd _ (List.getElem_mem hkd)
    unfold mrDistSpec
    exact le_trans (le_trans hd0 (le_max_right _ _)) (le_max_right _ _)
  rw [← hlam]
  exact Flt.recipQ_nonneg _ hmr

/-- Inversion for the enclosing-node phase: a successful run exposes the
underlying successful resolver run with the same lambda value. -/
theorem enclosing_ok_lambda (raw ctree : List TreeRec) (idx : List Nat)
    (nd core : List ℚ) (ms fuel : Nat) (pc : Int) (lam : Flt)
    (h : enclosingCluster raw ctree idx nd core ms fuel =
      Except.ok (pc, lam)) :
    ∃ nn, findNeighborAndLambda idx nd core ms = Except.ok (nn, lam) := by
  unfold enclosingCluster at h
  cases hroot : minListInt (ctree.map (fun r => r.parent)) with
  | none =>
    simp only [hroot] at h
    exact Except.noConfusion h
  | some root =>
    cases hres : findNeighborAndLambda idx nd core ms with
    | error e =>
      simp only [hroot, hres] at h
      exact Except.noConfusion h
    | ok p =>
      obtain ⟨nn, lam2⟩ := p
      cases hrow : get_tree_row_with_child raw (Int.ofNat nn) with
      | none =>
        simp only [hroot, hres, hrow] at h
        exact Except.noConfusion h
      | some row =>
        simp only [hroot, hres, hrow] at h
        by_cases hblt : Flt.blt lam2 row.lambda_val
        · rw [if_pos hblt] at h
          cases hclimb : climb ctree root lam2 fuel row.parent with
          | none =>
            simp only [hclimb] at h
            exact Except.noConfusion h
          | some pc2 =>
            simp only [hclimb] at h
            injection h with h2
            rw [Prod.mk.injEq] at h2
            exact ⟨nn, by rw [h2.2]⟩
        · rw [if_neg hblt] at h
          injection h with h2
          rw [Prod.mk.injEq] at h2
          exact ⟨nn, by rw [h2.2]⟩

/-- A successful enclosing-node phase makes
`_find_cluster_and_probability` equal to the assignment tail. -/
theorem fcp_eq_assign (raw ctree : List TreeRec) (idx : List Nat)
    (nd core : List ℚ) (cmap : List (Int × Int)) (mls : List (Int × Flt))
    (ms fuel : Nat) (pc : Int) (lam : Flt)
    (h : enclosingCluster raw ctree idx nd core ms fuel =
      Except.ok (pc, lam)) :
    findClusterAndProbability raw ctree idx nd core cmap mls ms fuel =
      assignLabelProb cmap mls pc lam := by
  unfold findClusterAndProbability
  simp only [h]

/-- Characterization of the assignment-and-scoring tail under the data
invariants (max-lambda values finite and nonnegative; every mapped
cluster has a max-lambda entry; lambda nonnegative). -/
theorem assign_spec (cmap : List (Int × Int)) (mls : List (Int × Flt))
    (pc : Int) (lam : Flt) (hlam : Flt.Nonneg lam)
    (hm : ∀ p ∈ mls, ∃ q, p.2 = Flt.fin q ∧ 0 ≤ q)
    (hkeys : ∀ l, List.lookup pc cmap = some l → 0 ≤ l →
      (List.lookup pc mls).isSome) :
    ∃ label prob,
      assignLabelProb cmap mls pc lam = Except.ok (label, prob) ∧
      label = (List.lookup pc cmap).getD (-1) ∧
      (label = -1 → prob = Flt.fin 0) ∧
      (∀ q, 0 ≤ label → List.lookup pc mls = some (Flt.fin q) →
        ((0 < q → prob = Flt.fdiv (Flt.fmin (Flt.fin q) lam) (Flt.fin q)) ∧
         (q = 0 → prob = Flt.fin 1))) ∧
      (∃ p2, prob = Flt.fin p2 ∧ 0 ≤ p2 ∧ p2 ≤ 1) ∧
      (label = -1 ∨ ∃ pr ∈ cmap, pr.2 = label) := by
  cases hcm : List.lookup pc cmap with
  | none =>
    have heq : assignLabelProb cmap mls pc lam = Except.ok (-1, Flt.fin 0) := by
      unfold assignLabelProb
      simp only [hcm]
    refine ⟨-1, Flt.fin 0, heq, by simp [hcm], fun _ => rfl, ?_, ?_, Or.inl rfl⟩
    · intro q hq _
      exact absurd hq (by norm_num)
    · exact ⟨0, rfl, le_refl 0, by norm_num⟩
  | some label =>
    by_cases hl : (0 : Int) ≤ label
    · have hsome := hkeys label hcm hl
      cases hml : List.lookup pc mls with
      | none => rw [hml] at hsome; simp at hsome
      | some maxL =>
        obtain ⟨q, hq, hq0⟩ := hm (pc, maxL) (lookup_mem mls pc maxL hml)
        simp only at hq
        subst hq
        by_cases hqpos : 0 < q
        · have hblt : Flt.blt (Flt.fin 0) (Flt.fin q) = true := by
            simp [Flt.blt, hqpos]
          have heq : assignLabelProb cmap mls pc lam =
              Except.ok (label, Flt.fdiv (Flt.fmin (Flt.fin q) lam) (Flt.fin q)) := by
            unfold assignLabelProb
            simp only [hcm, hml]
            rw [if_pos hl, if_pos hblt]
          refine ⟨label, Flt.fdiv (Flt.fmin (Flt.fin q) lam) (Flt.fin q),
            heq, by simp [hcm], ?_, ?_, ?_, ?_⟩
          · intro hcon
            rw [hcon] at hl
            exact absurd hl (by norm_num)
          · intro q2 _ hml2
            have hq2 : q = q2 := by
              have hinj := Option.some.inj hml2
              injection hinj
            subst hq2
            exact ⟨fun _ => rfl, fun h0 => absurd (h0 ▸ hqpos) (lt_irrefl 0)⟩
          · cases lam with
            | inf =>
              refine ⟨1, ?_, by norm_num, by norm_num⟩
              have hmin : Flt.fmin (Flt.fin q) Flt.inf = Flt.fin q := by
                simp [Flt.fmin, Flt.blt]
              rw [hmin]
              simp [Flt.fdiv, div_self (ne_of_gt hqpos)]
            | fin l =>
              have hl0 : (0 : ℚ) ≤ l := hlam
              by_cases hlq : l < q
              · have hmin : Flt.fmin (Flt.fin q) (Flt.fin l) = Flt.fin l := by
                  simp [Flt.fmin, Flt.blt, hlq]
                rw [hmin]
                refine ⟨l / q, rfl, div_nonneg hl0 (le_of_lt hqpos), ?_⟩
                rw [div_le_one hqpos]
                exact le_of_lt hlq
              · have hmin : Flt.fmin (Flt.fin q) (Flt.fin l) = Flt.fin q := by
                  simp [Flt.fmin, Flt.blt, hlq]
                rw [hmin]
                refine ⟨q / q, rfl, div_nonneg (le_of_lt hqpos) (le_of_lt hqpos), ?_⟩
                rw [div_self (ne_of_gt hqpos)]
          · exact Or.inr ⟨(pc, label), lookup_mem cmap pc label hcm, rfl⟩
        · have hqz : q = 0 := le_antisymm (not_lt.mp hqpos) hq0
          subst hqz
          have hblt : ¬ (Flt.blt (Flt.fin 0) (Flt.fin 0) = true) := by
            simp [Flt.blt]
          have heq : assignLabelProb cmap mls pc lam =
              Except.ok (label, Flt.fin 1) := by
            unfold assignLabelProb
            simp only [hcm, hml]
            rw [if_pos hl, if_neg hblt]
          refine ⟨label, Flt.fin 1, heq, by simp [hcm], ?_, ?_, ?_, ?_⟩
          · intro hcon
            rw [hcon] at hl
            exact absurd hl (by norm_num)
          · intro q2 _ hml2
            have hq2 : (0 : ℚ) = q2 := by
              have hinj := Option.some.inj hml2
              injection hinj
            subst hq2
            exact ⟨fun h0 => absurd h0 (lt_irrefl 0), fun _ => rfl⟩
          · exact ⟨1, rfl, by norm_num, by norm_num⟩
          · exact Or.inr ⟨(pc, label), lookup_mem cmap pc label hcm, rfl⟩
    · have heq : assignLabelProb cmap mls pc lam =
          Except.ok (label, Flt.fin 0) := by
        unfold assignLabelProb
        simp only [hcm]
        rw [if_neg hl]
      refine ⟨label, Flt.fin 0, heq, by simp [hcm], fun _ => rfl, ?_, ?_, ?_⟩
      · intro q hq _
        exact absurd hq hl
      · exact ⟨0, rfl, le_refl 0, by norm_num⟩
      · exact Or.inr ⟨(pc, label), lookup_mem cmap pc label hcm, rfl⟩

/-- A small concrete condensed tree: root 4 splits into clusters 5 and 6
at lambda 1; points 0, 1 fall out of cluster 5 at lambdas 2 and 3, and
points 2, 3 fall out of cluster 6 at lambdas 2 and 4. -/
def exTree : List TreeRec :=
  [⟨4, 5, Flt.fin 1, Flt.fin 2⟩, ⟨4, 6, Flt.fin 1, Flt.fin 2⟩,
   ⟨5, 0, Flt.fin 2, Flt.fin 1⟩, ⟨5, 1, Flt.fin 3, Flt.fin 1⟩,
   ⟨6, 2, Flt.fin 2, Flt.fin 1⟩, ⟨6, 3, Flt.fin 4, Flt.fin 1⟩]

/-- The cluster-only subsequence of `exTree` (records with
`child_size > 1`). -/
def exClusterTree : List TreeRec :=
  [⟨4, 5, Flt.fin 1, Flt.fin 2⟩, ⟨4, 6, Flt.fin 1, Flt.fin 2⟩]

/-- Core distances for the four points of the concrete example. -/
def exCore : List ℚ := [(2 : ℚ)⁻¹, (2 : ℚ)⁻¹, (2 : ℚ)⁻¹, (2 : ℚ)⁻¹]

/-- Smaller core distances, giving a large lambda for new points. -/
def exCoreSmall : List ℚ := [(5 : ℚ)⁻¹, (5 : ℚ)⁻¹, (5 : ℚ)⁻¹, (5 : ℚ)⁻¹]

/-- Cluster map for the concrete example: clusters 5 and 6 are selected
and carry labels 0 and 1. -/
def exCmap : List (Int × Int) := [(5, 0), (6, 1)]

/-- Max-lambda map for the concrete example. -/
def exMls : List (Int × Flt) := [(5, Flt.fin 3), (6, Flt.fin 4)]

/-- C3: Resolver computation: with at least `min_samples + 1` candidates
(and parallel index/distance arrays over valid point indices), the
resolver takes the pseudo core distance to be the raw distance at 0-based
index `min_samples`, computes each candidate's mutual-reachability
distance as `max(core_distance[candidate], pseudo_core_distance,
raw_distance)` (the formula transcribed in `mrDistSpec`), returns the
original index of a candidate minimizing that value, and returns lambda
equal to the reciprocal of that minimal mutual-reachability distance. -/
theorem resolver_computation (idx : List Nat) (nd core : List ℚ) (ms : Nat)
    (hAll : ∀ i ∈ idx, i < core.length) (hms : ms < nd.length)
    (hlen : idx.length = nd.length) :
    ∃ k, k < idx.length ∧
      findNeighborAndLambda idx nd core ms =
        Except.ok (idx.getD k 0, Flt.recipQ (mrDistSpec idx nd core ms k)) ∧
      (∀ j, j < idx.length →
        mrDistSpec idx nd core ms k ≤ mrDistSpec idx nd core ms j) := by
  obtain ⟨k, h1, h2, h3, -⟩ := resolver_ok_spec idx nd core ms hAll hms hlen
  exact ⟨k, h1, h2, h3⟩

theorem resolver_computation_witness :
    (∀ i ∈ [0, 1], i < exCore.length) ∧ 1 < [(2 : ℚ)⁻¹, (2 : ℚ)⁻¹].length ∧
    [0, 1].length = [(2 : ℚ)⁻¹, (2 : ℚ)⁻¹].length ∧
    (∃ k, k < [0, 1].length ∧
      findNeighborAndLambda [0, 1] [(2 : ℚ)⁻¹, (2 : ℚ)⁻¹] exCore 1 =
        Except.ok (([0, 1] : List Nat).getD k 0,
          Flt.recipQ (mrDistSpec [0, 1] [(2 : ℚ)⁻¹, (2 : ℚ)⁻¹] exCore 1 k)) ∧
      (∀ j, j < [0, 1].length →
        mrDistSpec [0, 1] [(2 : ℚ)⁻¹, (2 : ℚ)⁻¹] exCore 1 k ≤
          mrDistSpec [0, 1] [(2 : ℚ)⁻¹, (2 : ℚ)⁻¹] exCore 1 j)) :=
  ⟨by decide, by decide, by decide,
    resolver_computation [0, 1] [(2 : ℚ)⁻¹, (2 : ℚ)⁻¹] exCore 1
      (by decide) (by decide) (by decide)⟩

/-- C7: Tie-break determinism: when the candidates are pre-sorted by
ascending raw distance, the resolver selects the first position attaining
the minimal mutual-reachability distance, so any candidate tying with the
winner appears no earlier and has a raw distance no smaller. -/
theorem resolver_tie_break (idx : List Nat) (nd core : List ℚ) (ms : Nat)
    (hAll : ∀ i ∈ idx, i < core.length) (hms : ms < nd.length)
    (hlen : idx.length = nd.length)
    (hsorted : ∀ i j, i < j → j < nd.length → nd.getD i 0 ≤ nd.getD j 0) :
    ∃ k, k < idx.length ∧
      findNeighborAndLambda idx nd core ms =
        Except.ok (idx.getD k 0, Flt.recipQ (mrDistSpec idx nd core ms k)) ∧
      (∀ j, j < idx.length →
        mrDistSpec idx nd core ms j = mrDistSpec idx nd core ms k →
        k ≤ j ∧ nd.getD k 0 ≤ nd.getD j 0) := by
  obtain ⟨k, h1, h2, h3, h4⟩ := resolver_ok_spec idx nd core ms hAll hms hlen
  refine ⟨k, h1, h2, ?_⟩
  intro j hj heq
  have hkj : k ≤ j := by
    by_contra hlt
    push_neg at hlt
    exact (ne_of_gt (h4 j hlt)) heq
  refine ⟨hkj, ?_⟩
  rcases eq_or_lt_of_le hkj with heq2 | hlt2
  · rw [heq2]
  · exact hsorted k j hlt2 (hlen ▸ hj)

theorem resolver_tie_break_witness :
    ∃ k, k < [2, 3].length ∧
      findNeighborAndLambda [2, 3] [(2 : ℚ)⁻¹, (2 : ℚ)⁻¹] exCore 1 =
        Except.ok (([2, 3] : List Nat).getD k 0,
          Flt.recipQ (mrDistSpec [2, 3] [(2 : ℚ)⁻¹, (2 : ℚ)⁻¹] exCore 1 k)) ∧
      (∀ j, j < [2, 3].length →
        mrDistSpec [2, 3] [(2 : ℚ)⁻¹, (2 : ℚ)⁻¹] exCore 1 j =
          mrDistSpec [2, 3] [(2 : ℚ)⁻¹, (2 : ℚ)⁻¹] exCore 1 k →
        k ≤ j ∧ ([(2 : ℚ)⁻¹, (2 : ℚ)⁻¹] : List ℚ).getD k 0 ≤
          ([(2 : ℚ)⁻¹, (2 : ℚ)⁻¹] : List ℚ).getD j 0) :=
  resolver_tie_break [2, 3] [(2 : ℚ)⁻¹, (2 : ℚ)⁻¹] exCore 1 (by decide) (by decide)
    (by decide)
    (by
      intro i j hij hj
      simp only [List.length_cons, List.length_nil] at hj
      have hj1 : j = 1 := by omega
      have hi0 : i = 0 := by omega
      subst hj1
      subst hi0
      with_unfolding_all decide)

/-- C8: Resolver precondition error: when fewer than `min_samples + 1`
candidate neighbors are supplied, indexing the raw-distance array at
position `min_samples` is out of bounds, so the resolver fails with an
error (the spec's `InvalidArgument`; an `IndexError` in Python) rather
than returning a result. -/
theorem resolver_too_few_candidates (idx : List Nat) (nd core : List ℚ)
    (ms : Nat) (h : nd.length ≤ ms) :
    ∃ e, findNeighborAndLambda idx nd core ms = Except.error e := by
  unfold findNeighborAndLambda
  by_cases hAll : ∀ i ∈ idx, i < core.length
  · rw [dif_pos hAll, dif_neg (by omega)]
    exact ⟨_, rfl⟩
  · rw [dif_neg hAll]
    exact ⟨_, rfl⟩

theorem resolver_too_few_candidates_witness :
    [(2 : ℚ)⁻¹, (2 : ℚ)⁻¹].length ≤ 5 ∧
    ∃ e, findNeighborAndLambda [0, 1] [(2 : ℚ)⁻¹, (2 : ℚ)⁻¹] exCore 5 =
      Except.error e :=
  ⟨by decide,
    resolver_too_few_candidates [0, 1] [(2 : ℚ)⁻¹, (2 : ℚ)⁻¹] exCore 5 (by decide)⟩

/-- C10: Infinite-lambda safety: when some candidate attains
mutual-reachability distance exactly zero (and distances are
nonnegative), the minimal mutual-reachability distance is zero and the
resolver returns lambda equal to positive infinity instead of faulting
on the division. -/
theorem resolver_zero_mr_infinite_lambda (idx : List Nat)
    (nd core : List ℚ) (ms : Nat)
    (hAll : ∀ i ∈ idx, i < core.length) (hms : ms < nd.length)
    (hlen : idx.length = nd.length) (hnd : ∀ q ∈ nd, 0 ≤ q)
    (hzero : ∃ j, j < idx.length ∧ mrDistSpec idx nd core ms j = 0) :
    ∃ nn, findNeighborAndLambda idx nd core ms =
      Except.ok (nn, Flt.inf) := by
  obtain ⟨k, hk1, hk2, hk3, -⟩ := resolver_ok_spec idx nd core ms hAll hms hlen
  obtain ⟨j, hj, hj0⟩ := hzero
  have hle : mrDistSpec idx nd core ms k ≤ 0 := by
    have hkm := hk3 j hj
    rwa [hj0] at hkm
  have hge : 0 ≤ mrDistSpec idx nd core ms k := by
    have hkd : k < nd.length := hlen ▸ hk1
    have hd0 : 0 ≤ nd.getD k 0 := by
      rw [List.getD_eq_getElem nd 0 hkd]
      exact hnd _ (List.getElem_mem hkd)
    unfold mrDistSpec
    exact le_trans (le_trans hd0 (le_max_right _ _)) (le_max_right _ _)
  have h0 : mrDistSpec idx nd core ms k = 0 := le_antisymm hle hge
  refine ⟨idx.getD k 0, ?_⟩
  rw [hk2, h0]
  simp [Flt.recipQ]

theorem resolver_zero_mr_infinite_lambda_witness :
    ∃ nn, findNeighborAndLambda [0, 1] [(0 : ℚ), 0] [(0 : ℚ), 0] 1 =
      Except.ok (nn, Flt.inf) :=
  resolver_zero_mr_infinite_lambda [0, 1] [(0 : ℚ), 0] [(0 : ℚ), 0] 1
    (by decide) (by decide) (by decide) (by decide)
    ⟨0, by decide, by decide⟩

/-- C5: Hierarchy extension frame property — the code never delivers it:
`_extend_condensed_tree` never returns a hierarchy at all.  On every
input the result is an error: an earlier lookup or resolver failure, or
the `TypeError` raised by `np.append(tree, bare-tuple)` at line 222 on
every execution that reaches the append.  No extended hierarchy with the
input's records plus one new record is ever produced (the input array is
left unmodified, as an exception appends nothing). -/
theorem extend_never_returns (tree : List TreeRec) (idx : List Nat)
    (nd core : List ℚ) (ms fuel : Nat) :
    isErrorResult (extendCondensedTree tree idx nd core ms fuel) = true := by
  unfold extendCondensedTree
  split
  · rfl
  · split
    · rfl
    · split
      · rfl
      · split
        · rfl
        · split
          · rfl
          · rfl

/-- C4: Hierarchy extension row content — no row is ever appended.  At a
concrete valid query that reaches the append (the resolved neighbor is
point 1 with merge lambda 3, below the new point's lambda 5, so the
`L_n <= lambda` branch builds the tuple `(5, -1, 1, 3)`),
`np.append` of the bare tuple into the structured array fails dtype
promotion and `_extend_condensed_tree` raises `TypeError`; the record the
claim describes (child `-1`, `child_size = 1`, `lambda_val = L_n`) never
materializes. -/
theorem extend_append_type_error :
    extendCondensedTree exTree [1, 0] [(5 : ℚ)⁻¹, (5 : ℚ)⁻¹]
        exCoreSmall 1 10 =
      Except.error "TypeError: invalid type promotion" := by
  with_unfolding_all rfl

/-- C6: `PredictionData.__init__` never completes normally: for every
input, the two-dimensional slice `cluster_tree[:, :2]` of the
one-dimensional structured record array raises `IndexError` before the
constructor can return (and the later exemplar loop would read the
unbound name `exemplars`). -/
theorem prediction_data_init_always_raises (selected : List Int)
    (raw : List TreeRec) :
    predictionDataInit selected raw =
      Except.error "IndexError: too many indices for array" := rfl

/-- C9: Batch predictor fail-fast errors: `approximate_predict` fails
with the prediction-data precondition error whenever the clusterer's
prediction data is absent (whatever the query points are), fails with the
dimension-mismatch error whenever the query dimensionality differs from
the fitted data's, and otherwise performs no structural check and passes
control to the per-point phase unchanged — so both checks happen before
any per-point prediction work. -/
theorem approximate_predict_fail_fast (c : Clusterer)
    (pts : List (List ℚ)) (fuel : Nat) :
    (c.prediction_data = none →
      approximate_predict c pts fuel =
        Except.error "Clusterer does not have prediction data!") ∧
    (∀ pd dp dr, c.prediction_data = some pd → shape2 pts = some dp →
      shape2 pd.raw_data = some dr → dp ≠ dr →
      approximate_predict c pts fuel =
        Except.error "New points dimension does not match fit data!") ∧
    (∀ pd d, c.prediction_data = some pd → shape2 pts = some d →
      shape2 pd.raw_data = some d →
      approximate_predict c pts fuel =
        perPointPhase pd c.condensed_tree (effectiveMinSamples c) pts
          fuel) := by
  refine ⟨?_, ?_, ?_⟩
  · intro h
    unfold approximate_predict
    simp only [h]
  · intro pd dp dr h1 h2 h3 hne
    unfold approximate_predict
    simp only [h1, h2, h3]
    rw [if_pos hne]
  · intro pd d h1 h2 h3
    unfold approximate_predict
    simp only [h1, h2, h3]
    rw [if_neg (fun hcon => hcon rfl)]

theorem approximate_predict_fail_fast_witness :
    approximate_predict ⟨none, exTree, some 1, 5⟩ [[0]] 3 =
      Except.error "Clusterer does not have prediction data!" :=
  (approximate_predict_fail_fast ⟨none, exTree, some 1, 5⟩ [[0]] 3).1 rfl

/-- C2: Cluster assignment and scoring postcondition: once the enclosing
node `pc` is determined (with the resolver's lambda), the returned label
is the cluster map's value for `pc` when present and `-1` otherwise; for
a non-negative label the probability is
`min(max_lambda, lambda) / max_lambda` when `max_lambda > 0` and exactly
`1.0` when `max_lambda = 0`; for label `-1` the probability is exactly
`0.0`; the probability always lies in `[0, 1]` and the label is `-1` or
one of the cluster map's labels. -/
theorem fcp_postcondition (raw ctree : List TreeRec) (idx : List Nat)
    (nd core : List ℚ) (cmap : List (Int × Int)) (mls : List (Int × Flt))
    (ms fuel : Nat) (pc : Int) (lam : Flt)
    (henc : enclosingCluster raw ctree idx nd core ms fuel =
      Except.ok (pc, lam))
    (hnd : ∀ q ∈ nd, 0 ≤ q)
    (hm : ∀ p ∈ mls, ∃ q, p.2 = Flt.fin q ∧ 0 ≤ q)
    (hkeys : ∀ l, List.lookup pc cmap = some l → 0 ≤ l →
      (List.lookup pc mls).isSome) :
    ∃ label prob,
      findClusterAndProbability raw ctree idx nd core cmap mls ms fuel =
        Except.ok (label, prob) ∧
      label = (List.lookup pc cmap).getD (-1) ∧
      (label = -1 → prob = Flt.fin 0) ∧
      (∀ q, 0 ≤ label → List.lookup pc mls = some (Flt.fin q) →
        ((0 < q → prob = Flt.fdiv (Flt.fmin (Flt.fin q) lam) (Flt.fin q)) ∧
         (q = 0 → prob = Flt.fin 1))) ∧
      (∃ p2, prob = Flt.fin p2 ∧ 0 ≤ p2 ∧ p2 ≤ 1) ∧
      (label = -1 ∨ ∃ pr ∈ cmap, pr.2 = label) := by
  obtain ⟨nn, hres⟩ :=
    enclosing_ok_lambda raw ctree idx nd core ms fuel pc lam henc
  have hlam := resolver_lam_nonneg idx nd core ms nn lam hres hnd
  obtain ⟨label, prob, h1, h2, h3, h4, h5, h6⟩ :=
    assign_spec cmap mls pc lam hlam hm hkeys
  refine ⟨label, prob, ?_, h2, h3, h4, h5, h6⟩
  rw [fcp_eq_assign raw ctree idx nd core cmap mls ms fuel pc lam henc]
  exact h1

theorem fcp_postcondition_witness :
    ∃ label prob,
      findClusterAndProbability exTree exClusterTree [0, 1]
          [(2 : ℚ)⁻¹, (2 : ℚ)⁻¹] exCore exCmap exMls 1 10 =
        Except.ok (label, prob) ∧
      label = (List.lookup (5 : Int) exCmap).getD (-1) ∧
      (label = -1 → prob = Flt.fin 0) ∧
      (∀ q, 0 ≤ label → List.lookup (5 : Int) exMls = some (Flt.fin q) →
        ((0 < q → prob =
            Flt.fdiv (Flt.fmin (Flt.fin q) (Flt.fin 2)) (Flt.fin q)) ∧
         (q = 0 → prob = Flt.fin 1))) ∧
      (∃ p2, prob = Flt.fin p2 ∧ 0 ≤ p2 ∧ p2 ≤ 1) ∧
      (label = -1 ∨ ∃ pr ∈ exCmap, pr.2 = label) :=
  fcp_postcondition exTree exClusterTree [0, 1] [(2 : ℚ)⁻¹, (2 : ℚ)⁻¹]
    exCore exCmap exMls 1 10 5 (Flt.fin 2)
    (by with_unfolding_all rfl)
    (by with_unfolding_all decide)
    (by
      intro p hp
      simp only [exMls, List.mem_cons, List.not_mem_nil, or_false] at hp
      rcases hp with rfl | rfl
      · exact ⟨3, rfl, by norm_num⟩
      · exact ⟨4, rfl, by norm_num⟩)
    (by intro l h1 h2; decide)
